import Mathlib

/-!
Verification of the hybrid patent-search orchestration layer.

This file is a shallow embedding of the TypeScript services of the repository
(`patentSearchService.ts`, `semanticSearchService.ts`, the two BigQuery
service variants) into Lean 4, together with theorems settling the frozen
claims about it.

Modelling conventions:
* JavaScript numbers are modelled as rationals; the similarity scores and the
  boost multiplier 1.2 are exact rationals here.
* A publication-date string is consumed by the ranking code only through
  `new Date(s).getTime()`; we model it by that parsed numeric timestamp, an
  integer, so the tie-break comparison is on the parsed value.
* A JavaScript `Map` is modelled as an insertion-ordered association list:
  `Map.set` on a present key replaces the value in place, otherwise appends;
  `Array.from(map.values())` is the list of values in insertion order.
* `Array.prototype.sort` with a consistent comparator is a stable sort; we
  model it by `List.insertionSort`, which is stable, with the relation
  `le a b` meaning `comparator(a, b) <= 0`.
* The external backends (embedding + vector query, warehouse queries) are
  parameters of the orchestrator: a `Backends` structure holds, for the fixed
  query and filters of one request, the outcome of each backend call.
  Fallible calls return `Except String`; a thrown exception is `Except.error`.
-/

namespace PatentSearch

/-- Raw output of the vector backend (`SemanticSearchResult` in
`semanticSearchService.ts`): a scored patent id. The `metadata` payload is
never consumed by the orchestrator and is omitted. -/
structure SemanticSearchResult where
  patent_id : String
  similarity_score : ℚ
  deriving DecidableEq, Repr

/-- Canonical patent record (`PatentResult` in `bigQueryService.ts`).
`publication_date` is the parsed timestamp of the date string (see the file
header); the remaining fields are carried verbatim. -/
structure PatentResult where
  patent_id : String
  title : String
  abstract : String
  publication_date : ℤ
  assignee : String
  inventors : List String
  country_code : String
  kind_code : String
  family_id : String
  classifications : List String
  similarity_score : ℚ
  url : String
  deriving DecidableEq, Repr

/-- Search-response metadata (`search_metadata` in `patentSearchService.ts`).
Wall-clock timing and the echoed filter names are environment data with no
algorithmic content and are not modelled. -/
structure SearchMetadata where
  semantic_results : Nat
  keyword_results : Nat
  query_tokens : Nat
  deriving DecidableEq, Repr

/-- The `SearchResponse` assembled by `searchPatents`. -/
structure SearchResponse where
  results : List PatentResult
  total_results : Nat
  search_metadata : SearchMetadata
  deriving DecidableEq, Repr

/-- The three search modes of `CombinedSearchRequest.searchType`. -/
inductive SearchType where
  | semantic
  | keyword
  | hybrid
  deriving DecidableEq, Repr

/-- Outcomes of the external backend calls for one fixed request
(query and filters are fixed for the whole request, so each operation is a
function of its remaining numeric or id-list argument only).

* `semQuery topK` is `semanticSearchService.semanticPatentSearch(query, topK)`:
  embedding generation followed by the vector query; an error is a thrown
  exception in either step.
* `getPatentsByIds ids` is `bigQueryService.getPatentsByIds(ids)`.
* `searchPatentsByKeywords limit` is
  `bigQueryService.searchPatentsByKeywords(query, filters, limit)`; keyword
  retrieval has no fallback, so it is modelled as total here and its failure
  (fatal to the whole request in the source) is outside the claims. -/
structure Backends where
  semQuery : Nat → Except String (List SemanticSearchResult)
  getPatentsByIds : List String → Except String (List PatentResult)
  searchPatentsByKeywords : Nat → List PatentResult

/-- The ranking relation of `combineAndRankResults`: `rankRel a b` says the
comparator `(a, b) => b.similarity_score - a.similarity_score`, falling back
to `date(b) - date(a)` on equal scores, is nonpositive, i.e. `a` may precede
`b` in the sorted output. -/
def rankRel (a b : PatentResult) : Prop :=
  b.similarity_score < a.similarity_score ∨
    (a.similarity_score = b.similarity_score ∧ b.publication_date ≤ a.publication_date)

instance : DecidableRel rankRel := fun a b => by
  unfold rankRel; infer_instance

instance : IsTotal PatentResult rankRel := by
  constructor
  intro a b
  unfold rankRel
  rcases lt_trichotomy a.similarity_score b.similarity_score with h | h | h
  · exact Or.inr (Or.inl h)
  · rcases le_total a.publication_date b.publication_date with hd | hd
    · exact Or.inr (Or.inr ⟨h.symm, hd⟩)
    · exact Or.inl (Or.inr ⟨h, hd⟩)
  · exact Or.inl (Or.inl h)

instance : IsTrans PatentResult rankRel := by
  constructor
  intro a b c hab hbc
  unfold rankRel at *
  rcases hab with h1 | ⟨h1, d1⟩
  · rcases hbc with h2 | ⟨h2, d2⟩
    · exact Or.inl (h2.trans h1)
    · exact Or.inl (h2 ▸ h1)
  · rcases hbc with h2 | ⟨h2, d2⟩
    · exact Or.inl (h1 ▸ h2)
    · exact Or.inr ⟨h1.trans h2, d2.trans d1⟩

/-- The score-descending relation used by the sort in
`mergeSimilarityScores`: comparator `(a, b) => b.similarity_score -
a.similarity_score` is nonpositive. -/
def scoreRel (a b : PatentResult) : Prop :=
  b.similarity_score ≤ a.similarity_score

instance : DecidableRel scoreRel := fun a b => by
  unfold scoreRel; infer_instance

instance : IsTotal PatentResult scoreRel :=
  ⟨fun a b => le_total b.similarity_score a.similarity_score⟩

instance : IsTrans PatentResult scoreRel :=
  ⟨fun _ _ _ hab hbc => hbc.trans hab⟩

/-- The boost applied to a semantic record in `combineAndRankResults`:
`{ ...result, similarity_score: result.similarity_score * 1.2 }`. -/
def boostResult (r : PatentResult) : PatentResult :=
  { r with similarity_score := r.similarity_score * 1.2 }

/-- `Map.set` on an insertion-ordered association list: replace in place when
the key is present, append otherwise. -/
def mapSet (m : List (String × PatentResult)) (key : String) (v : PatentResult) :
    List (String × PatentResult) :=
  if key ∈ m.map Prod.fst then
    m.map (fun e => if e.1 = key then (key, v) else e)
  else
    m ++ [(key, v)]

/-- First phase of `combineAndRankResults`: insert every semantic result into
the deduplication map under its id, with the boosted score. -/
def semInsert (semanticResults : List PatentResult) : List (String × PatentResult) :=
  semanticResults.foldl (fun m r => mapSet m r.patent_id (boostResult r)) []

/-- Second phase of `combineAndRankResults`: insert a keyword result only if
its id is not already a key of the map. -/
def kwInsert (m : List (String × PatentResult)) (keywordResults : List PatentResult) :
    List (String × PatentResult) :=
  keywordResults.foldl
    (fun m r => if r.patent_id ∈ m.map Prod.fst then m else m ++ [(r.patent_id, r)]) m

/-- `combineAndRankResults` of `patentSearchService.ts`: semantic results are
inserted first with their score boosted by 1.2, keyword results only when the
id is absent; the map values are then sorted by score descending with parsed
publication date descending as tie-break (stable sort, see header). -/
def combineAndRankResults (semanticResults keywordResults : List PatentResult) :
    List PatentResult :=
  ((kwInsert (semInsert semanticResults) keywordResults).map Prod.snd).insertionSort rankRel

/-- The score map of `mergeSimilarityScores`: `new Map(entries)` keeps the
last entry for a duplicated key, and `scoreMap.get(id) || 0` coalesces a
missing (or zero) score to 0. -/
def scoreLookup (semanticResults : List SemanticSearchResult) (id : String) : ℚ :=
  ((semanticResults.reverse.find? (fun s => s.patent_id = id)).map
    (fun s => s.similarity_score)).getD 0

/-- `mergeSimilarityScores` of `patentSearchService.ts`: overwrite every
fetched record with the score reported by the vector backend (0 when absent)
and sort by score descending. -/
def mergeSimilarityScores (patents : List PatentResult)
    (semanticResults : List SemanticSearchResult) : List PatentResult :=
  (patents.map
    (fun p => { p with similarity_score := scoreLookup semanticResults p.patent_id })).insertionSort
    scoreRel

/-- `performKeywordSearch`: a direct pass-through to the warehouse keyword
query. -/
def performKeywordSearch (B : Backends) (limit : Nat) : List PatentResult :=
  B.searchPatentsByKeywords limit

/-- `performSemanticSearch` of `patentSearchService.ts`: query the vector
backend with `topK = limit * 2`, keep matches with score at least
`minSimilarity`; if that set is empty, or any backend call throws, fall back
to the keyword search with the same limit; otherwise enrich the surviving ids
from the warehouse, merge scores and truncate to `limit`. The `try`/`catch`
of the source makes this function total: no backend error escapes it. -/
def performSemanticSearch (B : Backends) (limit : Nat) (minSimilarity : ℚ) :
    List PatentResult :=
  match B.semQuery (limit * 2) with
  | .error _ => performKeywordSearch B limit
  | .ok semanticResults =>
    let filteredResults :=
      semanticResults.filter (fun r => minSimilarity ≤ r.similarity_score)
    if filteredResults.isEmpty then
      performKeywordSearch B limit
    else
      match B.getPatentsByIds (filteredResults.map (fun r => r.patent_id)) with
      | .error _ => performKeywordSearch B limit
      | .ok patents => (mergeSimilarityScores patents filteredResults).take limit

/-- `performHybridSearch` of `patentSearchService.ts`: run the semantic branch
at `Math.floor(limit * 0.7)` and the keyword branch at
`Math.floor(limit * 0.5)`, combine, rank and truncate to `limit`.

The sub-limit expressions are evaluated in IEEE doubles in the source; for
the validated range 1..100 the double computation of `Math.floor(limit * 0.7)`
agrees with the rational floor `limit * 7 / 10` at every limit except 90
(where the double product rounds to just below 63), and
`Math.floor(limit * 0.5)` is exactly `limit / 2` because 0.5 is a binary
float. No claim depends on a sub-limit value other than at `limit = 1`,
where both computations give 0. -/
def performHybridSearch (B : Backends) (limit : Nat) (minSimilarity : ℚ) :
    List PatentResult :=
  (combineAndRankResults
    (performSemanticSearch B (limit * 7 / 10) minSimilarity)
    (performKeywordSearch B (limit / 2))).take limit

/-- `searchPatents` of `patentSearchService.ts`: dispatch on the search type,
compute the per-mode metadata counters on the branch result, and assemble the
response with `results.slice(0, limit)`. `queryTokens` is the token count
reported by the embedding call (`getQueryTokenCount`, 0 on failure), passed
in as a parameter; the keyword branch leaves it at 0. -/
def searchPatents (B : Backends) (searchType : SearchType) (limit : Nat)
    (minSimilarity : ℚ) (queryTokens : Nat) : SearchResponse :=
  let results : List PatentResult :=
    match searchType with
    | .semantic => performSemanticSearch B limit minSimilarity
    | .keyword => performKeywordSearch B limit
    | .hybrid => performHybridSearch B limit minSimilarity
  let semanticResultCount : Nat :=
    match searchType with
    | .semantic => results.length
    | .keyword => 0
    | .hybrid => (results.filter (fun r => 0 < r.similarity_score)).length
  let keywordResultCount : Nat :=
    match searchType with
    | .semantic => 0
    | .keyword => results.length
    | .hybrid => (results.filter (fun r => r.similarity_score = 0)).length
  let queryTokenCount : Nat :=
    match searchType with
    | .semantic => queryTokens
    | .keyword => 0
    | .hybrid => queryTokens
  { results := results.take limit
    total_results := results.length
    search_metadata :=
      { semantic_results := semanticResultCount
        keyword_results := keywordResultCount
        query_tokens := queryTokenCount } }

/-! ### The vector-adapter indexing pipeline (`indexPatentEmbeddings`)

Both copies of `semanticSearchService.ts` share the same batching logic:
records are processed in slices of `batchSize = 100`; inside a batch, a
record whose trimmed `title + " " + abstract` text is empty is skipped with a
warning log and contributes no vector; the upsert is called once per batch
carrying the vectors that survived, and only when at least one did. The
embedding call itself is modelled as always succeeding (the claim scenario);
the vector payload is identified with the source record. The result collects
the upsert calls in order and the skipped records in processing order (the
warning log). -/

/-- JavaScript `String.prototype.trim`: strip leading and trailing
whitespace. Defined structurally over the character list so that it
evaluates by kernel reduction. -/
def jsTrim (s : String) : String :=
  ⟨((s.data.dropWhile (fun c => c.isWhitespace)).reverse.dropWhile
    (fun c => c.isWhitespace)).reverse⟩

/-- The embedding input text of a record: `` `${title} ${abstract}`.trim() ``. -/
def embedText (p : PatentResult) : String :=
  jsTrim (p.title ++ " " ++ p.abstract)

/-- Split a list into consecutive batches of `batchSize = 100`, the iteration
`for (let i = 0; i < patents.length; i += batchSize)` with
`patents.slice(i, i + batchSize)`. -/
def toBatches (xs : List PatentResult) : List (List PatentResult) :=
  if xs.isEmpty then []
  else xs.take 100 :: toBatches (xs.drop 100)
termination_by xs.length
decreasing_by
  rename_i h
  have hne : xs ≠ [] := by intro heq; subst heq; exact h rfl
  have hpos : 0 < xs.length := List.length_pos.mpr hne
  simp only [List.length_drop]
  omega

/-- `indexPatentEmbeddings`: first component the list of upsert calls (one
entry per batch that produced at least one vector, carrying its vectors),
second component the skipped records in the order their warnings are
logged. -/
def indexPatentEmbeddings (patents : List PatentResult) :
    List (List PatentResult) × List PatentResult :=
  (((toBatches patents).map (fun b => b.filter (fun p => embedText p ≠ ""))).filter
      (fun v => v ≠ []),
    ((toBatches patents).map (fun b => b.filter (fun p => embedText p = ""))).flatten)

/-! ### The sparse-vector conversion (`convertToSparseVector`)

From the sparse-index variant of `semanticSearchService.ts`. A dense vector
is a `number[]`, modelled as `List ℚ`; a Lean list has no holes, so the
`value !== undefined` guard of the source is vacuous in the model. -/

/-- The loop of `convertToSparseVector`, carrying the current index `i`:
push `(i, value)` whenever the component is non-zero. -/
def sparseAux (i : Nat) : List ℚ → List (Nat × ℚ)
  | [] => []
  | v :: rest => if v ≠ 0 then (i, v) :: sparseAux (i + 1) rest else sparseAux (i + 1) rest

/-- `convertToSparseVector`: the non-zero components of the dense vector as
parallel `indices` and `values` arrays. -/
def convertToSparseVector (denseVector : List ℚ) : List Nat × List ℚ :=
  let pairs := sparseAux 0 denseVector
  (pairs.map Prod.fst, pairs.map Prod.snd)

/-- Rebuild a dense vector of length `n` from sparse `(indices, values)`
output: zeros at every unlisted index. This is the specification-side
reconstruction used to state that the conversion is exact. -/
def reconstructDense (indices : List Nat) (values : List ℚ) (n : Nat) : List ℚ :=
  (List.range n).map (fun i => ((indices.zip values).lookup i).getD 0)

end PatentSearch

/-! ### The result normalizer, Google-public-dataset variant

Shallow embedding of `transformBigQueryResults` from the `BigQueryService`
that targets the `patents-public-data` dataset. Raw rows arrive with
possibly missing (`undefined`/`null`) optional fields, modelled with
`Option`; the output record fields are plain values, so the normalized shape
structurally cannot be null. A date string is carried verbatim here (the
normalizer does not parse it), hence a record type separate from the
orchestrator one. -/

namespace GooglePatentsBQ

/-- One entry of `title_localized` and friends. -/
structure LocalizedText where
  text : String
  language : String
  deriving DecidableEq, Repr

/-- One entry of `assignee_harmonized` and `inventor_harmonized`. -/
structure HarmonizedName where
  name : String
  deriving DecidableEq, Repr

/-- A raw warehouse row (`BigQueryPatent`). -/
structure BigQueryPatent where
  publication_number : String
  title_localized : Option (List LocalizedText)
  abstract_localized : Option (List LocalizedText)
  publication_date : String
  assignee_harmonized : Option (List HarmonizedName)
  inventor_harmonized : Option (List HarmonizedName)
  country_code : String
  kind_code : Option String
  family_id : Option String
  deriving DecidableEq, Repr

/-- The normalized record produced by this normalizer. -/
structure NormalizedPatent where
  patent_id : String
  title : String
  abstract : String
  publication_date : String
  assignee : String
  inventors : List String
  country_code : String
  kind_code : String
  family_id : String
  classifications : List String
  similarity_score : ℚ
  url : String
  deriving DecidableEq, Repr

/-- JavaScript `x || d` for a possibly absent string: the default is taken
when the value is missing or the empty string (falsy). -/
def jsOrString (x : Option String) (d : String) : String :=
  match x with
  | none => d
  | some s => if s = "" then d else s

/-- `list?.[0]?.text`: the text of the first localized entry, when present. -/
def firstText (x : Option (List LocalizedText)) : Option String :=
  (x.bind List.head?).map LocalizedText.text

/-- `list?.[0]?.name`: the name of the first harmonized entry, when present. -/
def firstName (x : Option (List HarmonizedName)) : Option String :=
  (x.bind List.head?).map HarmonizedName.name

/-- The row-to-record mapping applied by `transformBigQueryResults` to each
row. Note `inventor_harmonized?.map(...) || ['Unknown']`: an empty array is
truthy in JavaScript, so only a missing list falls back to `['Unknown']`. -/
def transformRow (row : BigQueryPatent) : NormalizedPatent :=
  { patent_id := row.publication_number
    title := jsOrString (firstText row.title_localized) "Untitled Patent"
    abstract := jsOrString (firstText row.abstract_localized) "No abstract available"
    publication_date := row.publication_date
    assignee := jsOrString (firstName row.assignee_harmonized) "Unknown"
    inventors :=
      match row.inventor_harmonized with
      | none => ["Unknown"]
      | some l => l.map HarmonizedName.name
    country_code := row.country_code
    kind_code := jsOrString row.kind_code ""
    family_id := jsOrString row.family_id ""
    classifications := []
    similarity_score := 0
    url := "https://patents.google.com/patent/" ++ row.publication_number }

/-- `transformBigQueryResults`: `rows.map(...)`. -/
def transformBigQueryResults (rows : List BigQueryPatent) : List NormalizedPatent :=
  rows.map transformRow

end GooglePatentsBQ

/-! ### The result normalizer, custom-dataset variant

Shallow embedding of `transformBigQueryResults` from the `BigQueryService`
that targets a project-owned dataset (flat `title`/`abstract` columns). Its
defaults differ: missing text fields become empty strings, not the
documented placeholders. -/

namespace CustomBQ

/-- The `inventor` column: `string | string[]`, possibly absent. -/
inductive InventorField where
  | single (s : String)
  | several (l : List String)
  deriving DecidableEq, Repr

/-- A raw row of the custom dataset (`BigQueryPatent` of this variant). -/
structure BigQueryPatent where
  publication_number : String
  title : Option String
  abstract : Option String
  publication_date : Option String
  application_date : Option String
  assignee : Option String
  inventor : Option InventorField
  country_code : Option String
  kind_code : Option String
  family_id : Option String
  cpc_codes : Option (List String)
  deriving DecidableEq, Repr

/-- The normalized record of this variant (it also carries
`application_date`). -/
structure NormalizedPatent where
  patent_id : String
  title : String
  abstract : String
  publication_date : String
  application_date : String
  assignee : String
  inventors : List String
  country_code : String
  kind_code : String
  family_id : String
  classifications : List String
  similarity_score : ℚ
  url : String
  deriving DecidableEq, Repr

/-- The row-to-record mapping of this variant. `toIso` stands for the host
conversion `s => new Date(s).toISOString()`, applied only when the raw date
is present and non-empty (truthy); no claim depends on its value.
`Array.isArray(row.inventor) ? row.inventor : [row.inventor || '']` keeps an
array as is and wraps anything else — including a missing value — as a
one-element array with the empty-string default. -/
def transformRow (toIso : String → String) (row : BigQueryPatent) : NormalizedPatent :=
  { patent_id := row.publication_number
    title := GooglePatentsBQ.jsOrString row.title ""
    abstract := GooglePatentsBQ.jsOrString row.abstract ""
    publication_date :=
      match row.publication_date with
      | none => ""
      | some s => if s = "" then "" else toIso s
    application_date :=
      match row.application_date with
      | none => ""
      | some s => if s = "" then "" else toIso s
    assignee := GooglePatentsBQ.jsOrString row.assignee ""
    inventors :=
      match row.inventor with
      | some (.several l) => l
      | some (.single s) => [s]
      | none => [""]
    country_code := GooglePatentsBQ.jsOrString row.country_code ""
    kind_code := GooglePatentsBQ.jsOrString row.kind_code ""
    family_id := GooglePatentsBQ.jsOrString row.family_id ""
    classifications :=
      match row.cpc_codes with
      | some l => l
      | none => []
    similarity_score := 0
    url := "https://patents.google.com/patent/" ++ row.publication_number }

/-- `transformBigQueryResults`: `rows.map(...)`. -/
def transformBigQueryResults (toIso : String → String) (rows : List BigQueryPatent) :
    List NormalizedPatent :=
  rows.map (transformRow toIso)

end CustomBQ

/-! ## Concrete fixtures

Small concrete records and backend instances used to exercise the theorems
on explicit inputs. -/

namespace PatentSearch

/-- A concrete vector-matched record (the enriched form fetched from the
warehouse for a semantic hit). -/
def sampleSemantic : PatentResult :=
  { patent_id := "US-001"
    title := "Autonomous vehicle navigation"
    abstract := "Uses sensors"
    publication_date := 1700000000
    assignee := "Acme"
    inventors := ["Doe"]
    country_code := "US"
    kind_code := "A1"
    family_id := "F1"
    classifications := ["G06N3/04"]
    similarity_score := mkRat 9 10
    url := "https://patents.google.com/patent/US-001" }

/-- The same patent as retrieved by the keyword branch: same id, lexical
retrieval carries no vector evidence, so the score is 0. -/
def sampleKeyword : PatentResult :=
  { sampleSemantic with similarity_score := 0 }

/-- A keyword-only record with a distinct id. -/
def sampleKeyword2 : PatentResult :=
  { patent_id := "US-002"
    title := "Machine learning for vehicles"
    abstract := "No abstract available"
    publication_date := 1600000000
    assignee := "Unknown"
    inventors := ["Unknown"]
    country_code := "US"
    kind_code := ""
    family_id := ""
    classifications := []
    similarity_score := 0
    url := "https://patents.google.com/patent/US-002" }

/-- Backends whose branches honour their limits: the vector backend returns
at most `topK` matches and the warehouse returns at most `limit` rows. -/
def boundedBackends : Backends :=
  { semQuery := fun topK => .ok ([⟨"US-001", mkRat 9 10⟩].take topK)
    getPatentsByIds := fun _ => .ok [sampleSemantic]
    searchPatentsByKeywords := fun limit => [sampleKeyword].take limit }

/-- Backends whose vector side is unreachable: every embedding/vector call
throws, while the warehouse keyword search still answers. -/
def errorBackends : Backends :=
  { semQuery := fun _ => .error "vector-backend-unavailable"
    getPatentsByIds := fun _ => .ok []
    searchPatentsByKeywords := fun limit => [sampleKeyword2].take limit }

/-- A record whose combined embedding text is empty (indexing must skip
it). -/
def emptyTextRecord : PatentResult :=
  { sampleKeyword2 with patent_id := "US-EMPTY", title := "", abstract := " " }

end PatentSearch

/-- A Google-public-dataset row with every optional field absent. -/
def GooglePatentsBQ.emptyRow : GooglePatentsBQ.BigQueryPatent :=
  { publication_number := "US-100"
    title_localized := none
    abstract_localized := none
    publication_date := "20210101"
    assignee_harmonized := none
    inventor_harmonized := none
    country_code := "US"
    kind_code := none
    family_id := none }

/-- A custom-dataset row with every optional field absent. -/
def CustomBQ.emptyRow : CustomBQ.BigQueryPatent :=
  { publication_number := "US-200"
    title := none
    abstract := none
    publication_date := none
    application_date := none
    assignee := none
    inventor := none
    country_code := none
    kind_code := none
    family_id := none
    cpc_codes := none }

/-! ## Lemmas about the deduplication map of `combineAndRankResults` -/

namespace PatentSearch

theorem boostResult_patent_id (r : PatentResult) :
    (boostResult r).patent_id = r.patent_id := rfl

theorem mapSet_mem {m : List (String × PatentResult)} {key : String} {v : PatentResult}
    {e : String × PatentResult} (he : e ∈ mapSet m key v) : e ∈ m ∨ e = (key, v) := by
  unfold mapSet at he
  split at he
  · obtain ⟨e', he', heq⟩ := List.mem_map.mp he
    by_cases h1 : e'.1 = key
    · simp only [h1, if_pos rfl] at heq
      exact Or.inr heq.symm
    · simp only [if_neg h1] at heq
      exact Or.inl (heq ▸ he')
  · rcases List.mem_append.mp he with h | h
    · exact Or.inl h
    · exact Or.inr (List.mem_singleton.mp h)

theorem mapSet_keys (m : List (String × PatentResult)) (key : String) (v : PatentResult) :
    (mapSet m key v).map Prod.fst =
      if key ∈ m.map Prod.fst then m.map Prod.fst else m.map Prod.fst ++ [key] := by
  unfold mapSet
  split
  · rw [List.map_map]
    apply List.map_congr_left
    intro e _
    by_cases h1 : e.1 = key
    · simp [h1]
    · simp [h1]
  · simp

theorem mapSet_keys_nodup {m : List (String × PatentResult)} {key : String}
    {v : PatentResult} (h : (m.map Prod.fst).Nodup) :
    ((mapSet m key v).map Prod.fst).Nodup := by
  rw [mapSet_keys]
  split
  · exact h
  · rename_i hk
    simp only [List.nodup_append, List.nodup_singleton, List.disjoint_singleton]
    exact ⟨h, trivial, hk⟩

theorem mapSet_key_mem (m : List (String × PatentResult)) (key : String) (v : PatentResult) :
    key ∈ (mapSet m key v).map Prod.fst := by
  rw [mapSet_keys]
  split
  · assumption
  · simp

theorem mapSet_keys_subset (m : List (String × PatentResult)) (key : String)
    (v : PatentResult) : m.map Prod.fst ⊆ (mapSet m key v).map Prod.fst := by
  rw [mapSet_keys]
  split
  · exact fun _ h => h
  · exact fun _ h => List.mem_append.mpr (Or.inl h)

/-- Every entry of the semantic-insertion fold is either an initial entry or
the boosted image of a semantic record keyed by its id. -/
theorem semInsert_fold_mem :
    ∀ (sem : List PatentResult) (m : List (String × PatentResult))
      (e : String × PatentResult),
      e ∈ sem.foldl (fun m r => mapSet m r.patent_id (boostResult r)) m →
      e ∈ m ∨ ∃ s ∈ sem, e = (s.patent_id, boostResult s)
  | [], _, _, he => Or.inl he
  | r :: sem, m, e, he => by
    rcases semInsert_fold_mem sem (mapSet m r.patent_id (boostResult r)) e he with h | ⟨s, hs, rfl⟩
    · rcases mapSet_mem h with h | rfl
      · exact Or.inl h
      · exact Or.inr ⟨r, List.mem_cons_self r sem, rfl⟩
    · exact Or.inr ⟨s, List.mem_cons_of_mem r hs, rfl⟩

theorem semInsert_fold_keys_nodup :
    ∀ (sem : List PatentResult) (m : List (String × PatentResult)),
      (m.map Prod.fst).Nodup →
      ((sem.foldl (fun m r => mapSet m r.patent_id (boostResult r)) m).map Prod.fst).Nodup
  | [], _, h => h
  | _ :: sem, _, h =>
    semInsert_fold_keys_nodup sem _ (mapSet_keys_nodup h)

theorem semInsert_fold_keys_subset :
    ∀ (sem : List PatentResult) (m : List (String × PatentResult)),
      m.map Prod.fst ⊆
        (sem.foldl (fun m r => mapSet m r.patent_id (boostResult r)) m).map Prod.fst
  | [], _ => fun _ h => h
  | r :: sem, m => fun _ hk =>
    semInsert_fold_keys_subset sem _ (mapSet_keys_subset m r.patent_id (boostResult r) hk)

/-- Every semantic record leaves its id as a key of the fold result. -/
theorem semInsert_fold_covers :
    ∀ (sem : List PatentResult) (m : List (String × PatentResult)) (s : PatentResult),
      s ∈ sem →
      s.patent_id ∈
        (sem.foldl (fun m r => mapSet m r.patent_id (boostResult r)) m).map Prod.fst
  | r :: sem, m, s, hs => by
    rcases List.mem_cons.mp hs with rfl | hs
    · exact semInsert_fold_keys_subset sem _ (mapSet_key_mem m s.patent_id (boostResult s))
    · exact semInsert_fold_covers sem _ s hs

theorem semInsert_mem {sem : List PatentResult} {e : String × PatentResult}
    (he : e ∈ semInsert sem) : ∃ s ∈ sem, e = (s.patent_id, boostResult s) := by
  rcases semInsert_fold_mem sem [] e he with h | h
  · cases h
  · exact h

theorem semInsert_keys_nodup (sem : List PatentResult) :
    ((semInsert sem).map Prod.fst).Nodup :=
  semInsert_fold_keys_nodup sem [] List.nodup_nil

theorem semInsert_covers {sem : List PatentResult} {s : PatentResult} (hs : s ∈ sem) :
    s.patent_id ∈ (semInsert sem).map Prod.fst :=
  semInsert_fold_covers sem [] s hs

theorem kwInsert_mem :
    ∀ (kw : List PatentResult) (m : List (String × PatentResult))
      (e : String × PatentResult),
      e ∈ kwInsert m kw → e ∈ m ∨ ∃ r ∈ kw, e = (r.patent_id, r)
  | [], _, _, he => Or.inl he
  | r :: kw, m, e, he => by
    unfold kwInsert at he
    rw [List.foldl_cons] at he
    rcases kwInsert_mem kw _ e he with h | ⟨r', hr', rfl⟩
    · split at h
      · exact Or.inl h
      · rcases List.mem_append.mp h with h | h
        · exact Or.inl h
        · exact Or.inr ⟨r, List.mem_cons_self r kw, List.mem_singleton.mp h⟩
    · exact Or.inr ⟨r', List.mem_cons_of_mem r hr', rfl⟩

theorem kwInsert_extends :
    ∀ (kw : List PatentResult) (m : List (String × PatentResult))
      (e : String × PatentResult), e ∈ m → e ∈ kwInsert m kw
  | [], _, _, he => he
  | r :: kw, m, e, he => by
    unfold kwInsert
    rw [List.foldl_cons]
    apply kwInsert_extends kw _ e
    split
    · exact he
    · exact List.mem_append.mpr (Or.inl he)

theorem kwInsert_keys_subset :
    ∀ (kw : List PatentResult) (m : List (String × PatentResult)),
      m.map Prod.fst ⊆ (kwInsert m kw).map Prod.fst
  | [], _ => fun _ h => h
  | r :: kw, m => by
    intro k hk
    unfold kwInsert
    rw [List.foldl_cons]
    apply kwInsert_keys_subset kw _
    split
    · exact hk
    · simp only [List.map_append]
      exact List.mem_append.mpr (Or.inl hk)

theorem kwInsert_keys_nodup :
    ∀ (kw : List PatentResult) (m : List (String × PatentResult)),
      (m.map Prod.fst).Nodup → ((kwInsert m kw).map Prod.fst).Nodup
  | [], _, h => h
  | r :: kw, m, h => by
    unfold kwInsert
    rw [List.foldl_cons]
    apply kwInsert_keys_nodup kw _
    split
    · exact h
    · rename_i hk
      simp only [List.map_append, List.map_cons, List.map_nil, List.nodup_append,
        List.nodup_singleton, List.disjoint_singleton]
      exact ⟨h, trivial, hk⟩

/-- A keyword insertion never overwrites: every entry of the result either was
already present or has a key that was absent initially. -/
theorem kwInsert_preserves :
    ∀ (kw : List PatentResult) (m : List (String × PatentResult))
      (e : String × PatentResult),
      e ∈ kwInsert m kw → e ∈ m ∨ e.1 ∉ m.map Prod.fst
  | [], _, _, he => Or.inl he
  | r :: kw, m, e, he => by
    unfold kwInsert at he
    rw [List.foldl_cons] at he
    rcases kwInsert_preserves kw _ e he with h | h
    · split at h
      · exact Or.inl h
      · next hcond =>
        rcases List.mem_append.mp h with h | h
        · exact Or.inl h
        · rcases List.mem_singleton.mp h with rfl
          exact Or.inr hcond
    · refine Or.inr fun hm => h ?_
      split
      · exact hm
      · simp only [List.map_append]
        exact List.mem_append.mpr (Or.inl hm)

/-- With duplicate-free keys, an association list determines its entries by
key. -/
theorem assoc_entry_unique :
    ∀ {m : List (String × PatentResult)}, (m.map Prod.fst).Nodup →
      ∀ {e e' : String × PatentResult}, e ∈ m → e' ∈ m → e.1 = e'.1 → e = e'
  | [], _, _, _, he, _, _ => absurd he (List.not_mem_nil _)
  | x :: m, h, e, e', he, he', hk => by
    simp only [List.map_cons, List.nodup_cons] at h
    rcases List.mem_cons.mp he with rfl | he1 <;> rcases List.mem_cons.mp he' with rfl | he2
    · rfl
    · exact absurd (by rw [hk]; exact List.mem_map_of_mem Prod.fst he2) h.1
    · exact absurd (by rw [← hk]; exact List.mem_map_of_mem Prod.fst he1) h.1
    · exact assoc_entry_unique h.2 he1 he2 hk

/-- Every value of the combined deduplication map carries its own key as
`patent_id`. -/
theorem combined_entry_pid {sem kw : List PatentResult} {e : String × PatentResult}
    (he : e ∈ kwInsert (semInsert sem) kw) : e.2.patent_id = e.1 := by
  rcases kwInsert_mem kw _ e he with h | ⟨r, _, rfl⟩
  · obtain ⟨s, _, rfl⟩ := semInsert_mem h
    rfl
  · rfl

theorem combined_keys_nodup (sem kw : List PatentResult) :
    ((kwInsert (semInsert sem) kw).map Prod.fst).Nodup :=
  kwInsert_keys_nodup kw _ (semInsert_keys_nodup sem)

theorem combined_values_pid_nodup (sem kw : List PatentResult) :
    (((kwInsert (semInsert sem) kw).map Prod.snd).map (fun r => r.patent_id)).Nodup := by
  have h : ((kwInsert (semInsert sem) kw).map Prod.snd).map (fun r => r.patent_id) =
      (kwInsert (semInsert sem) kw).map Prod.fst := by
    rw [List.map_map]
    exact List.map_congr_left (fun e he => combined_entry_pid he)
  rw [h]
  exact combined_keys_nodup sem kw

theorem combineAndRankResults_nodup (sem kw : List PatentResult) :
    ((combineAndRankResults sem kw).map (fun r => r.patent_id)).Nodup := by
  unfold combineAndRankResults
  exact ((List.perm_insertionSort rankRel _).map _).nodup_iff.mpr
    (combined_values_pid_nodup sem kw)

theorem combineAndRankResults_mem {sem kw : List PatentResult} {r : PatentResult}
    (hr : r ∈ combineAndRankResults sem kw) :
    ∃ e ∈ kwInsert (semInsert sem) kw, e.2 = r := by
  unfold combineAndRankResults at hr
  rw [List.mem_insertionSort] at hr
  obtain ⟨e, he, heq⟩ := List.mem_map.mp hr
  exact ⟨e, he, heq⟩

/-- Core of the hybrid-dedup claim: a combined result whose id occurs among
the semantic branch records is the boosted image of a semantic record —
never an un-boosted keyword record. -/
theorem combineAndRankResults_semantic_wins {sem kw : List PatentResult}
    {r : PatentResult} (hr : r ∈ combineAndRankResults sem kw)
    (hid : ∃ s ∈ sem, s.patent_id = r.patent_id) :
    ∃ s ∈ sem, s.patent_id = r.patent_id ∧ r = boostResult s := by
  obtain ⟨e, he, he2⟩ := combineAndRankResults_mem hr
  have hpid : e.1 = r.patent_id := by
    rw [← he2]
    exact (combined_entry_pid he).symm
  obtain ⟨s0, hs0, hs0id⟩ := hid
  have hkey : r.patent_id ∈ (semInsert sem).map Prod.fst :=
    hs0id ▸ semInsert_covers hs0
  rcases kwInsert_preserves kw _ e he with hin | hout
  · obtain ⟨s, hs, rfl⟩ := semInsert_mem hin
    refine ⟨s, hs, ?_, he2.symm⟩
    rw [← hpid]
  · exact absurd (hpid ▸ hkey) hout

theorem combineAndRankResults_sorted (sem kw : List PatentResult) :
    List.Sorted rankRel (combineAndRankResults sem kw) :=
  List.sorted_insertionSort rankRel _

/-- The hybrid-mode results of a completed response, unfolded: the combined
ranking truncated to the limit (once inside `performHybridSearch`, once more
by `searchPatents`). -/
theorem searchPatents_hybrid_results (B : Backends) (limit : Nat) (minSimilarity : ℚ)
    (queryTokens : Nat) :
    (searchPatents B .hybrid limit minSimilarity queryTokens).results =
      ((combineAndRankResults
        (performSemanticSearch B (limit * 7 / 10) minSimilarity)
        (performKeywordSearch B (limit / 2))).take limit).take limit := rfl

/-- The results of a completed response, for any mode: the branch output
truncated by `results.slice(0, limit)`. -/
theorem searchPatents_results (B : Backends) (searchType : SearchType) (limit : Nat)
    (minSimilarity : ℚ) (queryTokens : Nat) :
    (searchPatents B searchType limit minSimilarity queryTokens).results =
      (match searchType with
        | .semantic => performSemanticSearch B limit minSimilarity
        | .keyword => performKeywordSearch B limit
        | .hybrid => performHybridSearch B limit minSimilarity).take limit := rfl

/-! ## Claims -/

/-- Claim C1. For every hybrid-mode search, no patent id appears twice in the
returned result list; and any returned record whose id was produced by the
semantic branch — in particular any id produced by both branches — is the
semantic record with its similarity score multiplied by the fixed boost
factor 1.2, never the keyword record. -/
theorem hybrid_dedup_semantic_boost (B : Backends) (limit : Nat) (minSimilarity : ℚ)
    (queryTokens : Nat) :
    (((searchPatents B .hybrid limit minSimilarity queryTokens).results).map
      (fun r => r.patent_id)).Nodup ∧
    ∀ r ∈ (searchPatents B .hybrid limit minSimilarity queryTokens).results,
      (∃ s ∈ performSemanticSearch B (limit * 7 / 10) minSimilarity,
        s.patent_id = r.patent_id) →
      ∃ s ∈ performSemanticSearch B (limit * 7 / 10) minSimilarity,
        s.patent_id = r.patent_id ∧ r = boostResult s := by
  constructor
  · rw [searchPatents_hybrid_results]
    have h1 : List.Sublist
        (((combineAndRankResults
          (performSemanticSearch B (limit * 7 / 10) minSimilarity)
          (performKeywordSearch B (limit / 2))).take limit).take limit)
        (combineAndRankResults
          (performSemanticSearch B (limit * 7 / 10) minSimilarity)
          (performKeywordSearch B (limit / 2))) :=
      (List.take_sublist _ _).trans (List.take_sublist _ _)
    exact (combineAndRankResults_nodup _ _).sublist (h1.map _)
  · intro r hr hid
    rw [searchPatents_hybrid_results] at hr
    exact combineAndRankResults_semantic_wins
      (List.take_subset _ _ (List.take_subset _ _ hr)) hid

/-- Witness for C1 on concrete data: with the vector branch matching
`US-001` at score 9/10 and the keyword branch returning the same patent
unscored, the returned record is the semantic one with the boosted score. -/
theorem hybrid_dedup_semantic_boost_witness :
    ∃ s ∈ performSemanticSearch boundedBackends (10 * 7 / 10) (mkRat 7 10),
      s.patent_id = (boostResult sampleSemantic).patent_id ∧
        boostResult sampleSemantic = boostResult s :=
  (hybrid_dedup_semantic_boost boundedBackends 10 (mkRat 7 10) 3).2
    (boostResult sampleSemantic)
    (by
      have hres : (searchPatents boundedBackends .hybrid 10 (mkRat 7 10) 3).results =
          [boostResult sampleSemantic] := rfl
      rw [hres]
      exact List.mem_singleton.mpr rfl)
    ⟨sampleSemantic, by decide, by decide⟩

/-- Claim C2. In every hybrid-mode response, adjacent results are ordered by
similarity score descending, with parsed publication date descending as the
tie-break. -/
theorem hybrid_ordering (B : Backends) (limit : Nat) (minSimilarity : ℚ)
    (queryTokens : Nat) :
    List.Chain'
      (fun a b => b.similarity_score < a.similarity_score ∨
        (a.similarity_score = b.similarity_score ∧
          b.publication_date ≤ a.publication_date))
      (searchPatents B .hybrid limit minSimilarity queryTokens).results := by
  rw [searchPatents_hybrid_results]
  have h1 : List.Sublist
      (((combineAndRankResults
        (performSemanticSearch B (limit * 7 / 10) minSimilarity)
        (performKeywordSearch B (limit / 2))).take limit).take limit)
      (combineAndRankResults
        (performSemanticSearch B (limit * 7 / 10) minSimilarity)
        (performKeywordSearch B (limit / 2))) :=
    (List.take_sublist _ _).trans (List.take_sublist _ _)
  exact ((combineAndRankResults_sorted _ _).sublist h1).chain'

/-- Claim C3. If the embedding step or the vector query fails, or no match
reaches the `minSimilarity` threshold, semantic-mode search returns exactly
the keyword-mode result list for the same query, filters and limit. The
fallback is taken inside `performSemanticSearch`, which is a total function
here: no backend error reaches the caller on this path. -/
theorem semantic_fallback_is_keyword (B : Backends) (limit : Nat) (minSimilarity : ℚ)
    (queryTokens : Nat)
    (h : (∃ e, B.semQuery (limit * 2) = .error e) ∨
      ∀ l, B.semQuery (limit * 2) = .ok l →
        l.filter (fun r => decide (minSimilarity ≤ r.similarity_score)) = []) :
    (searchPatents B .semantic limit minSimilarity queryTokens).results =
      (searchPatents B .keyword limit minSimilarity queryTokens).results := by
  rw [searchPatents_results, searchPatents_results]
  have hb : performSemanticSearch B limit minSimilarity = performKeywordSearch B limit := by
    unfold performSemanticSearch
    cases hq : B.semQuery (limit * 2) with
    | error e => rfl
    | ok l =>
      rcases h with ⟨e, he⟩ | hfil
      · rw [hq] at he
        cases he
      · have hf := hfil l hq
        simp only [hf, List.isEmpty_nil, if_pos]
  rw [hb]

/-- Witness for C3: with an unreachable vector backend, the semantic-mode
and keyword-mode result lists coincide on a concrete request. -/
theorem semantic_fallback_is_keyword_witness :
    (searchPatents errorBackends .semantic 5 (mkRat 7 10) 0).results =
      (searchPatents errorBackends .keyword 5 (mkRat 7 10) 0).results :=
  semantic_fallback_is_keyword errorBackends 5 (mkRat 7 10) 0
    (Or.inl ⟨"vector-backend-unavailable", rfl⟩)

/-- Claim C4. In every mode and for every limit, the results list of the
returned response has length at most the limit. -/
theorem limit_contract (B : Backends) (searchType : SearchType) (limit : Nat)
    (minSimilarity : ℚ) (queryTokens : Nat) :
    (searchPatents B searchType limit minSimilarity queryTokens).results.length ≤ limit := by
  rw [searchPatents_results]
  exact List.length_take_le limit _

/-- Claim C10. At the minimum valid request limit 1, the hybrid sub-limits
`Math.floor(1 * 0.7)` and `Math.floor(1 * 0.5)` are both 0, so — as long as
the two backends honour their `topK`/`LIMIT` arguments — the hybrid result
list is empty no matter how much data the backends hold. -/
theorem hybrid_limit_one_empty (B : Backends) (minSimilarity : ℚ) (queryTokens : Nat)
    (hsem : ∀ k l, B.semQuery k = .ok l → l.length ≤ k)
    (hkw : ∀ n, (B.searchPatentsByKeywords n).length ≤ n) :
    1 * 7 / 10 = 0 ∧ 1 / 2 = 0 ∧
      (searchPatents B .hybrid 1 minSimilarity queryTokens).results = [] := by
  refine ⟨rfl, rfl, ?_⟩
  rw [searchPatents_hybrid_results]
  have hkw0 : B.searchPatentsByKeywords 0 = [] :=
    List.length_eq_zero.mp (Nat.le_zero.mp (hkw 0))
  have hsem0 : performSemanticSearch B (1 * 7 / 10) minSimilarity = [] := by
    show performSemanticSearch B 0 minSimilarity = []
    unfold performSemanticSearch
    cases hq : B.semQuery (0 * 2) with
    | error e => exact hkw0
    | ok l =>
      have hl : l = [] := List.length_eq_zero.mp (Nat.le_zero.mp (hsem (0 * 2) l hq))
      subst hl
      simpa [performKeywordSearch] using hkw0
  rw [hsem0]
  have hkwb : performKeywordSearch B (1 / 2) = [] := hkw0
  rw [hkwb]
  rfl

/-! ## Score provenance lemmas -/

theorem mergeSimilarityScores_mem {patents : List PatentResult}
    {semanticResults : List SemanticSearchResult} {r : PatentResult}
    (hr : r ∈ mergeSimilarityScores patents semanticResults) :
    ∃ p ∈ patents,
      r = { p with similarity_score := scoreLookup semanticResults p.patent_id } := by
  unfold mergeSimilarityScores at hr
  rw [List.mem_insertionSort] at hr
  obtain ⟨p, hp, heq⟩ := List.mem_map.mp hr
  exact ⟨p, hp, heq.symm⟩

theorem scoreLookup_bounds {semanticResults : List SemanticSearchResult}
    (h : ∀ s ∈ semanticResults, 0 ≤ s.similarity_score ∧ s.similarity_score ≤ 1)
    (id : String) : 0 ≤ scoreLookup semanticResults id ∧ scoreLookup semanticResults id ≤ 1 := by
  unfold scoreLookup
  cases hf : semanticResults.reverse.find? (fun s => s.patent_id = id) with
  | none => simp
  | some s =>
    have hs : s ∈ semanticResults := by
      have := List.mem_of_find?_eq_some hf
      exact List.mem_reverse.mp this
    simpa using h s hs

/-- Provenance of a combined hybrid record: it is either a boosted semantic
record or an untouched keyword record. -/
theorem combineAndRankResults_source {sem kw : List PatentResult} {r : PatentResult}
    (hr : r ∈ combineAndRankResults sem kw) :
    (∃ s ∈ sem, r = boostResult s) ∨ r ∈ kw := by
  obtain ⟨e, he, he2⟩ := combineAndRankResults_mem hr
  rcases kwInsert_mem kw _ e he with h | ⟨k, hk, rfl⟩
  · obtain ⟨s, hs, rfl⟩ := semInsert_mem h
    exact Or.inl ⟨s, hs, he2.symm⟩
  · exact Or.inr (he2 ▸ hk)

/-- Scores produced by the semantic branch always lie in `[0, 1]`, provided
the vector backend reports scores in `[0, 1]` and keyword rows are unscored
(similarity 0), as `transformBigQueryResults` guarantees. -/
theorem performSemanticSearch_scores (B : Backends) (limit : Nat) (minSimilarity : ℚ)
    (hsem : ∀ k l, B.semQuery k = .ok l →
      ∀ s ∈ l, 0 ≤ s.similarity_score ∧ s.similarity_score ≤ 1)
    (hkw0 : ∀ n, ∀ r ∈ B.searchPatentsByKeywords n, r.similarity_score = 0) :
    ∀ r ∈ performSemanticSearch B limit minSimilarity,
      0 ≤ r.similarity_score ∧ r.similarity_score ≤ 1 := by
  intro r hr
  unfold performSemanticSearch at hr
  have hfall : ∀ n, r ∈ performKeywordSearch B n →
      0 ≤ r.similarity_score ∧ r.similarity_score ≤ 1 := by
    intro n hn
    rw [hkw0 n r hn]
    exact ⟨le_refl 0, zero_le_one⟩
  cases hq : B.semQuery (limit * 2) with
  | error e =>
    rw [hq] at hr
    exact hfall limit hr
  | ok l =>
    rw [hq] at hr
    simp only at hr
    split at hr
    · exact hfall limit hr
    · split at hr
      · exact hfall limit hr
      · obtain ⟨p, hp, rfl⟩ := mergeSimilarityScores_mem (List.take_subset _ _ hr)
        refine scoreLookup_bounds ?_ p.patent_id
        intro s hs
        exact hsem (limit * 2) l hq s (List.mem_of_mem_filter hs)

/-- The semantic branch never returns more than its limit when the keyword
backend honours its own limit. -/
theorem performSemanticSearch_length_le (B : Backends) (limit : Nat) (minSimilarity : ℚ)
    (hkw : ∀ n, (B.searchPatentsByKeywords n).length ≤ n) :
    (performSemanticSearch B limit minSimilarity).length ≤ limit := by
  unfold performSemanticSearch
  cases hq : B.semQuery (limit * 2) with
  | error e => exact hkw limit
  | ok l =>
    simp only
    split
    · exact hkw limit
    · split
      · exact hkw limit
      · exact List.length_take_le limit _

/-- Witness for C10 on backends holding data but honouring their limits. -/
theorem hybrid_limit_one_empty_witness :
    1 * 7 / 10 = 0 ∧ 1 / 2 = 0 ∧
      (searchPatents boundedBackends .hybrid 1 (mkRat 7 10) 0).results = [] :=
  hybrid_limit_one_empty boundedBackends (mkRat 7 10) 0
    (fun k l hl => by
      have h : ([⟨"US-001", mkRat 9 10⟩] : List SemanticSearchResult).take k = l :=
        Except.ok.inj hl
      rw [← h]
      exact List.length_take_le k _)
    (fun n => List.length_take_le n _)

/-- Counterexample to claim C5 as stated. In semantic mode with an
unreachable vector backend, the response is built from the keyword fallback
(one unscored record), yet `semantic_results` reports the full result count
1 — not the number of returned results with a positive similarity score,
which is 0. -/
theorem metadata_counts_counterexample :
    (searchPatents errorBackends .semantic 5 (mkRat 7 10) 0).search_metadata.semantic_results
      ≠ ((searchPatents errorBackends .semantic 5 (mkRat 7 10) 0).results.filter
          (fun r => 0 < r.similarity_score)).length := by
  decide

/-- Claim C5, amended. The claimed identities hold in hybrid mode, where the
counters are computed on the very list that is returned, and also in keyword
mode, because every keyword row carries the hard-coded sentinel score 0 (as
both `transformBigQueryResults` variants guarantee): there the reported
total is exactly the number of returned score-0 records and the semantic
count is 0, the number of positive-score records. Only semantic mode
violates the claim: the code reports the total number of returned results as
`semantic_results` — even when they came from the keyword fallback and all
carry score 0 — and 0 as `keyword_results`. The keyword backend is assumed
to honour its row limit. -/
theorem metadata_counts_by_mode (B : Backends) (limit : Nat) (minSimilarity : ℚ)
    (queryTokens : Nat)
    (hkw : ∀ n, (B.searchPatentsByKeywords n).length ≤ n)
    (hkw0 : ∀ n, ∀ r ∈ B.searchPatentsByKeywords n, r.similarity_score = 0) :
    ((searchPatents B .hybrid limit minSimilarity queryTokens).search_metadata.semantic_results =
        ((searchPatents B .hybrid limit minSimilarity queryTokens).results.filter
          (fun r => 0 < r.similarity_score)).length ∧
      (searchPatents B .hybrid limit minSimilarity queryTokens).search_metadata.keyword_results =
        ((searchPatents B .hybrid limit minSimilarity queryTokens).results.filter
          (fun r => r.similarity_score = 0)).length) ∧
    ((searchPatents B .keyword limit minSimilarity queryTokens).search_metadata.semantic_results =
        ((searchPatents B .keyword limit minSimilarity queryTokens).results.filter
          (fun r => 0 < r.similarity_score)).length ∧
      (searchPatents B .keyword limit minSimilarity queryTokens).search_metadata.keyword_results =
        ((searchPatents B .keyword limit minSimilarity queryTokens).results.filter
          (fun r => r.similarity_score = 0)).length) ∧
    ((searchPatents B .semantic limit minSimilarity queryTokens).search_metadata.semantic_results =
        (searchPatents B .semantic limit minSimilarity queryTokens).results.length ∧
      (searchPatents B .semantic limit minSimilarity queryTokens).search_metadata.keyword_results
        = 0) := by
  have hhyb : (searchPatents B .hybrid limit minSimilarity queryTokens).results =
      performHybridSearch B limit minSimilarity := by
    rw [searchPatents_results]
    show (performHybridSearch B limit minSimilarity).take limit =
      performHybridSearch B limit minSimilarity
    unfold performHybridSearch
    rw [List.take_take, min_self]
  have hsem : (searchPatents B .semantic limit minSimilarity queryTokens).results =
      performSemanticSearch B limit minSimilarity := by
    rw [searchPatents_results]
    exact List.take_of_length_le (performSemanticSearch_length_le B limit minSimilarity hkw)
  have hkwr : (searchPatents B .keyword limit minSimilarity queryTokens).results =
      performKeywordSearch B limit := by
    rw [searchPatents_results]
    exact List.take_of_length_le (hkw limit)
  refine ⟨⟨?_, ?_⟩, ⟨?_, ?_⟩, ⟨?_, rfl⟩⟩
  · rw [hhyb]; rfl
  · rw [hhyb]; rfl
  · rw [hkwr]
    have hnil : (performKeywordSearch B limit).filter
        (fun r => decide (0 < r.similarity_score)) = [] := by
      apply List.filter_eq_nil_iff.mpr
      intro r hr
      rw [hkw0 limit r hr]
      simp
    rw [hnil]
    rfl
  · rw [hkwr]
    have hall : (performKeywordSearch B limit).filter
        (fun r => decide (r.similarity_score = 0)) = performKeywordSearch B limit := by
      apply List.filter_eq_self.mpr
      intro r hr
      simpa using hkw0 limit r hr
    rw [hall]
    rfl
  · rw [hsem]; rfl

/-- Witness for the amended C5 on concrete backends that honour their
limits and return unscored keyword rows. -/
theorem metadata_counts_by_mode_witness :
    ((searchPatents boundedBackends .hybrid 5 (mkRat 7 10) 0).search_metadata.semantic_results =
        ((searchPatents boundedBackends .hybrid 5 (mkRat 7 10) 0).results.filter
          (fun r => 0 < r.similarity_score)).length ∧
      (searchPatents boundedBackends .hybrid 5 (mkRat 7 10) 0).search_metadata.keyword_results =
        ((searchPatents boundedBackends .hybrid 5 (mkRat 7 10) 0).results.filter
          (fun r => r.similarity_score = 0)).length) ∧
    ((searchPatents boundedBackends .keyword 5 (mkRat 7 10) 0).search_metadata.semantic_results =
        ((searchPatents boundedBackends .keyword 5 (mkRat 7 10) 0).results.filter
          (fun r => 0 < r.similarity_score)).length ∧
      (searchPatents boundedBackends .keyword 5 (mkRat 7 10) 0).search_metadata.keyword_results =
        ((searchPatents boundedBackends .keyword 5 (mkRat 7 10) 0).results.filter
          (fun r => r.similarity_score = 0)).length) ∧
    ((searchPatents boundedBackends .semantic 5 (mkRat 7 10) 0).search_metadata.semantic_results
        = (searchPatents boundedBackends .semantic 5 (mkRat 7 10) 0).results.length ∧
      (searchPatents boundedBackends .semantic 5 (mkRat 7 10) 0).search_metadata.keyword_results
        = 0) :=
  metadata_counts_by_mode boundedBackends 5 (mkRat 7 10) 0
    (fun n => List.length_take_le n _)
    (fun n r hr => by
      have hr' := List.take_subset n _ hr
      rw [List.mem_singleton.mp hr']
      rfl)

/-- Counterexample to claim C6 as stated. On a hybrid search, the semantic
hit with backend score 9/10 is boosted by 1.2 and returned with similarity
score 27/25 — outside the claimed interval `[0, 1]`. -/
theorem similarity_range_counterexample :
    ∃ r ∈ (searchPatents boundedBackends .hybrid 10 (mkRat 7 10) 0).results,
      1 < r.similarity_score := by
  have hres : (searchPatents boundedBackends .hybrid 10 (mkRat 7 10) 0).results =
      [boostResult sampleSemantic] := rfl
  rw [hres]
  refine ⟨boostResult sampleSemantic, List.mem_singleton.mpr rfl, ?_⟩
  show (1 : ℚ) < mkRat 9 10 * 1.2
  rw [Rat.mkRat_eq_div]
  norm_num

/-- Claim C6, amended. Provided the vector backend reports scores in
`[0, 1]` and keyword rows carry the sentinel score 0 (as the normalizer
guarantees), every keyword-mode record has score exactly 0 and every
semantic-mode record has score in `[0, 1]`; hybrid-mode records however lie
in `[0, 1.2]`, because the 1.2 boost applied to semantic scores is not
clamped and exceeds 1 whenever the backend score exceeds 5/6. The value 0
remains the no-vector-evidence sentinel. -/
theorem similarity_score_ranges (B : Backends) (limit : Nat) (minSimilarity : ℚ)
    (queryTokens : Nat)
    (hsem : ∀ k l, B.semQuery k = .ok l →
      ∀ s ∈ l, 0 ≤ s.similarity_score ∧ s.similarity_score ≤ 1)
    (hkw0 : ∀ n, ∀ r ∈ B.searchPatentsByKeywords n, r.similarity_score = 0) :
    (∀ r ∈ (searchPatents B .keyword limit minSimilarity queryTokens).results,
      r.similarity_score = 0) ∧
    (∀ r ∈ (searchPatents B .semantic limit minSimilarity queryTokens).results,
      0 ≤ r.similarity_score ∧ r.similarity_score ≤ 1) ∧
    (∀ r ∈ (searchPatents B .hybrid limit minSimilarity queryTokens).results,
      0 ≤ r.similarity_score ∧ r.similarity_score ≤ 1.2) := by
  refine ⟨?_, ?_, ?_⟩
  · intro r hr
    rw [searchPatents_results] at hr
    exact hkw0 limit r (List.take_subset _ _ hr)
  · intro r hr
    rw [searchPatents_results] at hr
    exact performSemanticSearch_scores B limit minSimilarity hsem hkw0 r
      (List.take_subset _ _ hr)
  · intro r hr
    rw [searchPatents_hybrid_results] at hr
    have hr' := List.take_subset _ _ (List.take_subset _ _ hr)
    rcases combineAndRankResults_source hr' with ⟨s, hs, rfl⟩ | hkwm
    · obtain ⟨h0, h1⟩ := performSemanticSearch_scores B (limit * 7 / 10) minSimilarity
        hsem hkw0 s hs
      constructor
      · exact mul_nonneg h0 (by norm_num)
      · calc s.similarity_score * 1.2 ≤ 1 * 1.2 :=
              mul_le_mul_of_nonneg_right h1 (by norm_num)
          _ = 1.2 := one_mul _
    · rw [hkw0 (limit / 2) r hkwm]
      constructor
      · exact le_refl 0
      · norm_num

/-- Witness for the amended C6: the boosted hybrid record of the concrete
search lies in `[0, 1.2]`. -/
theorem similarity_score_ranges_witness :
    0 ≤ (boostResult sampleSemantic).similarity_score ∧
      (boostResult sampleSemantic).similarity_score ≤ 1.2 :=
  (similarity_score_ranges boundedBackends 10 (mkRat 7 10) 0
    (fun k l hl s hs => by
      have h : ([⟨"US-001", mkRat 9 10⟩] : List SemanticSearchResult).take k = l :=
        Except.ok.inj hl
      rw [← h] at hs
      have hs' := List.take_subset k _ hs
      rw [List.mem_singleton.mp hs']
      exact ⟨by decide, by decide⟩)
    (fun n r hrm => by
      have hr' := List.take_subset n _ hrm
      rw [List.mem_singleton.mp hr']
      rfl)).2.2
    (boostResult sampleSemantic)
    (by
      have hres : (searchPatents boundedBackends .hybrid 10 (mkRat 7 10) 0).results =
          [boostResult sampleSemantic] := rfl
      rw [hres]
      exact List.mem_singleton.mpr rfl)

end PatentSearch

/-- Counterexample to claim C7 as stated. The custom-dataset normalizer maps
a row with a missing title to the empty string, not to the documented
placeholder `"Untitled Patent"`. -/
theorem normalization_defaults_counterexample :
    (CustomBQ.transformBigQueryResults id [CustomBQ.emptyRow]).map (fun r => r.title) = [""] ∧
      ("" : String) ≠ "Untitled Patent" := by
  constructor
  · rfl
  · decide

/-- Claim C7, amended. Neither normalizer can produce a null field (the
normalized record type has plain, non-optional fields). The
Google-public-dataset normalizer applies the documented defaults — missing
title, abstract, assignee, inventor list and classifications become
`"Untitled Patent"`, `"No abstract available"`, `"Unknown"`, `["Unknown"]`
and `[]`. The custom-dataset normalizer instead defaults a missing title,
abstract or assignee to `""`, a missing inventor to `[""]`, and missing
classification codes to `[]`. -/
theorem normalization_defaults_by_variant (row : GooglePatentsBQ.BigQueryPatent)
    (row2 : CustomBQ.BigQueryPatent) (toIso : String → String) :
    (row.title_localized = none →
      (GooglePatentsBQ.transformRow row).title = "Untitled Patent") ∧
    (row.abstract_localized = none →
      (GooglePatentsBQ.transformRow row).abstract = "No abstract available") ∧
    (row.assignee_harmonized = none →
      (GooglePatentsBQ.transformRow row).assignee = "Unknown") ∧
    (row.inventor_harmonized = none →
      (GooglePatentsBQ.transformRow row).inventors = ["Unknown"]) ∧
    (GooglePatentsBQ.transformRow row).classifications = [] ∧
    (row2.title = none → (CustomBQ.transformRow toIso row2).title = "") ∧
    (row2.abstract = none → (CustomBQ.transformRow toIso row2).abstract = "") ∧
    (row2.assignee = none → (CustomBQ.transformRow toIso row2).assignee = "") ∧
    (row2.inventor = none → (CustomBQ.transformRow toIso row2).inventors = [""]) ∧
    (row2.cpc_codes = none → (CustomBQ.transformRow toIso row2).classifications = []) := by
  refine ⟨?_, ?_, ?_, ?_, rfl, ?_, ?_, ?_, ?_, ?_⟩ <;> intro h <;>
    simp [GooglePatentsBQ.transformRow, CustomBQ.transformRow, GooglePatentsBQ.jsOrString,
      GooglePatentsBQ.firstText, GooglePatentsBQ.firstName, h]

/-- Witness for the amended C7 on concrete all-optional-missing rows of both
dataset variants. -/
theorem normalization_defaults_by_variant_witness :
    (GooglePatentsBQ.transformRow GooglePatentsBQ.emptyRow).title = "Untitled Patent" ∧
      (CustomBQ.transformRow id CustomBQ.emptyRow).inventors = [""] :=
  ⟨(normalization_defaults_by_variant GooglePatentsBQ.emptyRow CustomBQ.emptyRow id).1 rfl,
    (normalization_defaults_by_variant GooglePatentsBQ.emptyRow CustomBQ.emptyRow
      id).2.2.2.2.2.2.2.2.1 rfl⟩

/-! ## Lemmas about the indexing batch loop -/

namespace PatentSearch

theorem toBatches_eq (xs : List PatentResult) :
    toBatches xs = if xs.isEmpty then [] else xs.take 100 :: toBatches (xs.drop 100) := by
  rw [toBatches]

theorem isEmpty_false_of_length {xs : List PatentResult} {n : Nat} (h : xs.length = n)
    (hn : n ≠ 0) : xs.isEmpty = false := by
  apply List.isEmpty_eq_false_iff_exists_mem.mpr
  cases xs with
  | nil => simp at h; exact absurd h.symm hn
  | cons a l => exact ⟨a, List.mem_cons_self a l⟩

theorem toBatches_flatten (xs : List PatentResult) : (toBatches xs).flatten = xs := by
  induction xs using toBatches.induct with
  | case1 xs hempty =>
    rw [toBatches_eq, if_pos hempty]
    exact (List.isEmpty_iff.mp hempty).symm
  | case2 xs hempty ih =>
    rw [toBatches_eq, if_neg hempty]
    simp only [List.flatten_cons, ih]
    exact List.take_append_drop 100 xs

/-- Claim C8. Indexing 250 records whose trimmed embedding text is never
empty performs exactly 3 upserts carrying 100, 100 and 50 vectors; and a
record with empty embedding text never reaches any upsert call — it is
recorded in the skip log instead, separately from successes. -/
theorem indexing_batches_and_skips (patents : List PatentResult) :
    (patents.length = 250 → (∀ p ∈ patents, embedText p ≠ "") →
      (indexPatentEmbeddings patents).1.map List.length = [100, 100, 50]) ∧
    (∀ p ∈ patents, embedText p = "" →
      (∀ b ∈ (indexPatentEmbeddings patents).1, p ∉ b) ∧
        p ∈ (indexPatentEmbeddings patents).2) := by
  constructor
  · intro h250 hne
    have hd1 : (patents.drop 100).length = 150 := by rw [List.length_drop, h250]
    have hd2 : ((patents.drop 100).drop 100).length = 50 := by rw [List.length_drop, hd1]
    have hd3 : (((patents.drop 100).drop 100).drop 100).length = 0 := by
      rw [List.length_drop, hd2]
    have hb : toBatches patents =
        [patents.take 100, (patents.drop 100).take 100,
          ((patents.drop 100).drop 100).take 100] := by
      rw [toBatches_eq, if_neg (by rw [isEmpty_false_of_length h250 (by decide)]; decide),
        toBatches_eq, if_neg (by rw [isEmpty_false_of_length hd1 (by decide)]; decide),
        toBatches_eq, if_neg (by rw [isEmpty_false_of_length hd2 (by decide)]; decide),
        toBatches_eq, if_pos (by rw [List.isEmpty_iff, ← List.length_eq_zero]; exact hd3)]
    have hsub1 : patents.take 100 ⊆ patents := List.take_subset 100 patents
    have hsub2 : (patents.drop 100).take 100 ⊆ patents :=
      fun a ha => List.drop_subset 100 patents (List.take_subset _ _ ha)
    have hsub3 : ((patents.drop 100).drop 100).take 100 ⊆ patents :=
      fun a ha =>
        List.drop_subset 100 patents
          (List.drop_subset 100 _ (List.take_subset _ _ ha))
    have hfil : ∀ (b : List PatentResult), b ⊆ patents →
        b.filter (fun p => embedText p ≠ "") = b := by
      intro b hsub
      apply List.filter_eq_self.mpr
      intro a ha
      simpa using hne a (hsub ha)
    have hlen1 : (patents.take 100).length = 100 := by
      rw [List.length_take, h250]
      exact min_eq_left (by norm_num)
    have hlen2 : ((patents.drop 100).take 100).length = 100 := by
      rw [List.length_take, hd1]
      exact min_eq_left (by norm_num)
    have hlen3 : (((patents.drop 100).drop 100).take 100).length = 50 := by
      rw [List.length_take, hd2]
      exact min_eq_right (by norm_num)
    unfold indexPatentEmbeddings
    rw [hb]
    simp only [List.map_cons, List.map_nil, hfil _ hsub1, hfil _ hsub2, hfil _ hsub3]
    rw [List.filter_cons_of_pos, List.filter_cons_of_pos, List.filter_cons_of_pos,
      List.filter_nil]
    · simp only [List.map_cons, List.map_nil, hlen1, hlen2, hlen3]
    · simp only [decide_eq_true_eq, ne_eq]
      intro hnil
      rw [hnil] at hlen3
      simp at hlen3
    · simp only [decide_eq_true_eq, ne_eq]
      intro hnil
      rw [hnil] at hlen2
      simp at hlen2
    · simp only [decide_eq_true_eq, ne_eq]
      intro hnil
      rw [hnil] at hlen1
      simp at hlen1
  · intro p hp hempty
    constructor
    · intro b hb hpb
      unfold indexPatentEmbeddings at hb
      have hb' := List.mem_filter.mp hb
      obtain ⟨b0, _, rfl⟩ := List.mem_map.mp hb'.1
      have := List.of_mem_filter hpb
      simp only [decide_eq_true_eq] at this
      exact this hempty
    · unfold indexPatentEmbeddings
      simp only
      rw [List.mem_flatten]
      have hp' : p ∈ (toBatches patents).flatten := by
        rw [toBatches_flatten]; exact hp
      obtain ⟨b, hbmem, hpb⟩ := List.mem_flatten.mp hp'
      refine ⟨b.filter (fun q => embedText q = ""), List.mem_map_of_mem _ hbmem, ?_⟩
      apply List.mem_filter.mpr
      exact ⟨hpb, by simpa using hempty⟩

/-- Witness for C8: 250 copies of a record with non-empty embedding text
produce exactly the upsert sizes 100, 100 and 50. -/
theorem indexing_batches_and_skips_witness :
    (indexPatentEmbeddings (List.replicate 250 sampleKeyword2)).1.map List.length =
      [100, 100, 50] :=
  (indexing_batches_and_skips (List.replicate 250 sampleKeyword2)).1
    (List.length_replicate 250 sampleKeyword2)
    (fun p hp => by rw [List.eq_of_mem_replicate hp]; decide)

/-! ## Lemmas about the sparse-vector conversion -/

theorem sparseAux_key_lower :
    ∀ (l : List ℚ) (i : Nat), ∀ p ∈ sparseAux i l, i ≤ p.1
  | [], _, _, hp => absurd hp (List.not_mem_nil _)
  | v :: rest, i, p, hp => by
    unfold sparseAux at hp
    split at hp
    · rcases List.mem_cons.mp hp with rfl | hp
      · exact le_refl i
      · exact le_trans (Nat.le_succ i) (sparseAux_key_lower rest (i + 1) p hp)
    · exact le_trans (Nat.le_succ i) (sparseAux_key_lower rest (i + 1) p hp)

theorem sparseAux_chain :
    ∀ (l : List ℚ) (i : Nat), List.Chain' (· < ·) ((sparseAux i l).map Prod.fst)
  | [], _ => List.chain'_nil
  | v :: rest, i => by
    unfold sparseAux
    split
    · rw [List.map_cons]
      apply List.chain'_cons'.mpr
      refine ⟨?_, sparseAux_chain rest (i + 1)⟩
      intro b hb
      have hbm : b ∈ (sparseAux (i + 1) rest).map Prod.fst := List.mem_of_mem_head? hb
      obtain ⟨p, hp, rfl⟩ := List.mem_map.mp hbm
      exact lt_of_lt_of_le (Nat.lt_succ_self i) (sparseAux_key_lower rest (i + 1) p hp)
    · exact sparseAux_chain rest (i + 1)

theorem sparseAux_mem_spec :
    ∀ (l : List ℚ) (i : Nat) (p : Nat × ℚ), p ∈ sparseAux i l →
      ∃ (k : Nat) (h : k < l.length), p.1 = i + k ∧ l.get ⟨k, h⟩ = p.2 ∧ p.2 ≠ 0
  | [], _, _, hp => absurd hp (List.not_mem_nil _)
  | v :: rest, i, p, hp => by
    unfold sparseAux at hp
    split at hp
    · next hv =>
      rcases List.mem_cons.mp hp with rfl | hp
      · exact ⟨0, by simp, by simp, rfl, hv⟩
      · obtain ⟨k, hk, h1, h2, h3⟩ := sparseAux_mem_spec rest (i + 1) p hp
        exact ⟨k + 1, by simpa using Nat.succ_lt_succ hk, by omega, h2, h3⟩
    · obtain ⟨k, hk, h1, h2, h3⟩ := sparseAux_mem_spec rest (i + 1) p hp
      exact ⟨k + 1, by simpa using Nat.succ_lt_succ hk, by omega, h2, h3⟩

theorem sparseAux_covers :
    ∀ (l : List ℚ) (i k : Nat) (h : k < l.length), l.get ⟨k, h⟩ ≠ 0 →
      i + k ∈ (sparseAux i l).map Prod.fst
  | v :: rest, i, 0, _, hnz => by
    unfold sparseAux
    rw [if_pos (by simpa using hnz)]
    simp
  | v :: rest, i, k + 1, h, hnz => by
    have hk : k < rest.length := by simpa using Nat.lt_of_succ_lt_succ h
    have ih := sparseAux_covers rest (i + 1) k hk hnz
    have harith : (i + 1) + k = i + (k + 1) := by omega
    unfold sparseAux
    split
    · rw [List.map_cons]
      exact List.mem_cons_of_mem _ (harith ▸ ih)
    · exact harith ▸ ih

theorem sparseAux_lookup_lt :
    ∀ (l : List ℚ) (i j : Nat), j < i → (sparseAux i l).lookup j = none
  | [], _, _, _ => rfl
  | v :: rest, i, j, hj => by
    unfold sparseAux
    split
    · have hbeq : (j == i) = false := beq_false_of_ne (Nat.ne_of_lt hj)
      simp only [List.lookup_cons, hbeq]
      exact sparseAux_lookup_lt rest (i + 1) j (Nat.lt_succ_of_lt hj)
    · exact sparseAux_lookup_lt rest (i + 1) j (Nat.lt_succ_of_lt hj)

theorem sparseAux_lookup :
    ∀ (l : List ℚ) (i k : Nat) (h : k < l.length),
      (sparseAux i l).lookup (i + k) =
        if l.get ⟨k, h⟩ = 0 then none else some (l.get ⟨k, h⟩)
  | v :: rest, i, 0, h => by
    show (sparseAux i (v :: rest)).lookup i = if v = 0 then none else some v
    unfold sparseAux
    by_cases hv : v = 0
    · rw [if_neg (by simpa using hv), if_pos hv]
      exact sparseAux_lookup_lt rest (i + 1) i (Nat.lt_succ_self i)
    · rw [if_pos hv, if_neg hv]
      simp [List.lookup]
  | v :: rest, i, k + 1, h => by
    have hk : k < rest.length := by simpa using Nat.lt_of_succ_lt_succ h
    have harith : i + (k + 1) = (i + 1) + k := by omega
    rw [List.get_cons_succ]
    unfold sparseAux
    by_cases hv : v = 0
    · rw [if_neg (by simpa using hv), harith]
      exact sparseAux_lookup rest (i + 1) k hk
    · rw [if_pos hv]
      have hbeq : (i + (k + 1) == i) = false := beq_false_of_ne (by omega)
      simp only [List.lookup_cons, hbeq]
      rw [harith]
      exact sparseAux_lookup rest (i + 1) k hk

/-- Parallel projection arrays zip back to the original pair list. -/
theorem zip_fst_snd {α β : Type} :
    ∀ l : List (α × β), (l.map Prod.fst).zip (l.map Prod.snd) = l
  | [] => rfl
  | p :: ps => by simp [zip_fst_snd ps]

/-- Claim C9. The dense-to-sparse conversion is exact: the indices are
strictly increasing; every produced pair is an original non-zero component
at its original position; every non-zero position is listed; and rebuilding
a dense vector from the sparse output (zeros at unlisted indices) returns
the original input. -/
theorem convertToSparseVector_exact (denseVector : List ℚ) :
    List.Chain' (· < ·) (convertToSparseVector denseVector).1 ∧
    (∀ p ∈ (convertToSparseVector denseVector).1.zip (convertToSparseVector denseVector).2,
      denseVector[p.1]? = some p.2 ∧ p.2 ≠ 0) ∧
    (∀ (k : Nat) (h : k < denseVector.length), denseVector.get ⟨k, h⟩ ≠ 0 →
      k ∈ (convertToSparseVector denseVector).1) ∧
    reconstructDense (convertToSparseVector denseVector).1
      (convertToSparseVector denseVector).2 denseVector.length = denseVector := by
  refine ⟨sparseAux_chain denseVector 0, ?_, ?_, ?_⟩
  · intro p hp
    unfold convertToSparseVector at hp
    rw [zip_fst_snd] at hp
    obtain ⟨k, hk, h1, h2, h3⟩ := sparseAux_mem_spec denseVector 0 p hp
    refine ⟨?_, h3⟩
    have hp1 : p.1 = k := by omega
    rw [hp1, List.getElem?_eq_getElem hk, ← h2]
    rfl
  · intro k h hnz
    have h0 := sparseAux_covers denseVector 0 k h hnz
    rw [Nat.zero_add] at h0
    exact h0
  · unfold reconstructDense convertToSparseVector
    simp only [zip_fst_snd]
    apply List.ext_getElem
    · simp
    · intro n h1 h2
      have hn : n < denseVector.length := by simpa using h2
      rw [List.getElem_map, List.getElem_range]
      have hl := sparseAux_lookup denseVector 0 n hn
      rw [Nat.zero_add] at hl
      rw [hl]
      by_cases hz : denseVector.get ⟨n, hn⟩ = 0
      · rw [if_pos hz, Option.getD_none]
        exact hz.symm
      · rw [if_neg hz, Option.getD_some]
        rfl

/-- Witness for C9: on the dense vector `[0, 3, 0, -2]` the second position
(a non-zero component) is listed among the sparse indices. -/
theorem convertToSparseVector_exact_witness :
    1 ∈ (convertToSparseVector [0, 3, 0, -2]).1 :=
  (convertToSparseVector_exact [0, 3, 0, -2]).2.2.1 1 (by decide) (by decide)

end PatentSearch
